import Mathlib

/-!
Verification development for the webscraper script (WK16-final_script.py).

The script fetches one page, extracts anchor and image URLs (with naive
string-concatenation resolution of relative URLs), regex-scans the page
text for phone numbers and zip codes, downloads images with a per-item
exception catch, filters and POS-tags tokens with NLTK, and renders a
text report.

Shallow embedding conventions:
  - BeautifulSoup parsing is abstracted: an Html value carries the anchor
    href attributes, the image src attributes, and the extracted text, in
    document order, exactly the data the script reads from the soup.
  - Python sets are modelled as duplicate-free lists built by setAdd
    (insertion-order representation; all claims are about membership).
  - Python's re.findall is modelled by a small backtracking regex engine
    (RE, mruns, pyFindall) covering exactly the constructs used by the two
    fixed patterns, with Python's leftmost / greedy / non-overlapping
    scan semantics.
  - Network and filesystem effects are oracles: requests.get is a function
    to Except, file writes append to a chronological write trace.
  - NLTK's pos_tag is an abstract tagging function; wordpunct_tokenize is
    implemented (ASCII scope) per its definition, the regex \w+|[^\w\s]+.
-/

/-! ## String primitives (Python str operations used by the script) -/

/-- Does the second list occur as a leading segment of the first?
(List-level model of Python str.startswith.) -/
def startsWithL : List Char → List Char → Bool
  | _, [] => true
  | [], _ :: _ => false
  | h :: hs, n :: ns => h == n && startsWithL hs ns

/-- Does the second list occur as a contiguous segment anywhere in the
first? (List-level model of the Python substring test `needle in hay`.) -/
def containsL : List Char → List Char → Bool
  | hay, needle =>
    startsWithL hay needle ||
      match hay with
      | [] => false
      | _ :: t => containsL t needle

/-- Python str.startswith on strings. -/
def pyStartsWith (s p : String) : Bool := startsWithL s.data p.data

/-- Python substring containment: `needle in hay`. -/
def strContains (hay needle : String) : Bool := containsL hay.data needle.data

/-- Python str.lower (ASCII scope). -/
def pyLower (s : String) : String := ⟨s.data.map Char.toLower⟩

/-- Python str.isalpha (ASCII scope): nonempty and all characters
alphabetic. -/
def pyIsAlpha (s : String) : Bool := !s.data.isEmpty && s.data.all Char.isAlpha

/-- os.path.basename: the part of the path after the last slash. -/
def basename (s : String) : String :=
  ⟨(((s.data.reverse).takeWhile (fun c => !(c == '/'))).reverse)⟩

/-- Python set.add modelled on an insertion-ordered duplicate-free list:
append the element if it is not already present. -/
def setAdd (l : List String) (x : String) : List String :=
  if x ∈ l then l else l ++ [x]

/-- Python set(xs): fold setAdd over the list. -/
def setOfList (l : List String) : List String := l.foldl setAdd []

/-! ## Script constants (lines 29-35 of the source) -/

/-- The hardcoded target URL constant. -/
def URL : String := "https://casl.website"

/-- The hardcoded image directory constant. -/
def IMAGE_DIR : String := "images"

/-! ## Regex engine: the fragment of Python re used by the two patterns

Constructs: literal char, the class backslash-d, a greedy star of a single
char, greedy option, sequencing, and the word-boundary assertion
backslash-b. mruns enumerates every way a regex can match a prefix of the
input, in Python's backtracking priority order (greedy alternatives
first); the head of the list is the match Python's engine returns. -/

inductive RE where
  | eps : RE
  | chr : Char → RE
  | digit : RE
  | starChr : Char → RE
  | opt : RE → RE
  | seq : RE → RE → RE
  | bound : RE
deriving Repr, DecidableEq

/-- Python re word character (ASCII scope): letters, digits, underscore. -/
def isWordCharB (c : Char) : Bool := c.isAlphanum || c == '_'

/-- The word-boundary test: the previous character (none at the start) and
the next character (none at the end) differ in word-character status. -/
def atBoundary (prev : Option Char) (s : List Char) : Bool :=
  (match prev with
   | none => false
   | some c => isWordCharB c) !=
  (match s with
   | [] => false
   | c :: _ => isWordCharB c)

/-- Length of the maximal leading run of the character c. -/
def countRun (c : Char) : List Char → Nat
  | [] => 0
  | x :: xs => if x == c then countRun c xs + 1 else 0

/-- All ways a regex matches a prefix of the input, in backtracking
priority order. Each result is the last character consumed so far (for
later word-boundary tests) and the remaining input. -/
def mruns : RE → Option Char → List Char → List (Option Char × List Char)
  | .eps, prev, s => [(prev, s)]
  | .chr c, _, [] => (fun _ => []) c
  | .chr c, _, x :: xs => if x == c then [(some x, xs)] else []
  | .digit, _, [] => []
  | .digit, _, x :: xs => if x.isDigit then [(some x, xs)] else []
  | .starChr c, prev, s =>
    ((List.range (countRun c s + 1)).reverse).map
      (fun i => (if i == 0 then prev else some c, s.drop i))
  | .opt r, prev, s => mruns r prev s ++ [(prev, s)]
  | .seq r1 r2, prev, s =>
    (mruns r1 prev s).flatMap (fun pr => mruns r2 pr.1 pr.2)
  | .bound, prev, s => if atBoundary prev s then [(prev, s)] else []

/-- Right-nested sequencing of a list of regexes. -/
def reSeqList : List RE → RE
  | [] => .eps
  | [r] => r
  | r :: rest => .seq r (reSeqList rest)

theorem mruns_rest_le (r : RE) :
    ∀ (prev : Option Char) (s : List Char), ∀ pr ∈ mruns r prev s,
      pr.2.length ≤ s.length := by
  induction r with
  | eps =>
    intro prev s pr h
    simp [mruns] at h
    simp [h]
  | chr c =>
    intro prev s pr h
    cases s with
    | nil => simp [mruns] at h
    | cons x xs =>
      simp [mruns] at h
      rcases h with ⟨_, h2⟩
      simp [h2]
  | digit =>
    intro prev s pr h
    cases s with
    | nil => simp [mruns] at h
    | cons x xs =>
      simp [mruns] at h
      rcases h with ⟨_, h2⟩
      simp [h2]
  | starChr c =>
    intro prev s pr h
    simp [mruns] at h
    rcases h with ⟨i, _, h2⟩
    rw [← h2]
    simp
  | opt r ih =>
    intro prev s pr h
    simp [mruns] at h
    rcases h with h | h
    · exact ih prev s pr h
    · simp [h]
  | seq r1 r2 ih1 ih2 =>
    intro prev s pr h
    simp [mruns, List.mem_flatMap] at h
    obtain ⟨a, b, hq, hpr⟩ := h
    calc pr.2.length ≤ b.length := ih2 a b pr hpr
      _ ≤ s.length := ih1 prev s (a, b) hq
  | bound =>
    intro prev s pr h
    simp [mruns] at h
    rcases h with ⟨_, h2⟩
    simp [h2]

/-- Python re.findall scanning loop over a character list: at each
position try the regex (taking the engine's first match); on a match of
positive length, record it and resume after it; on a zero-width match,
record the empty match and advance one character; otherwise advance one
character. The threaded Option Char is the character just before the
current position. The first argument is recursion fuel: every step
advances at least one character, so by mruns_rest_le a budget of one more
than the input length is never exhausted; pyFindallL supplies it. -/
def pyFindallF : Nat → RE → Option Char → List Char → List (List Char)
  | 0, _, _, _ => []
  | fuel + 1, r, prev, s =>
    match mruns r prev s with
    | [] =>
      match s with
      | [] => []
      | x :: xs => pyFindallF fuel r (some x) xs
    | (p2, rest) :: _ =>
      if s.length - rest.length = 0 then
        match s with
        | [] => [[]]
        | x :: xs => [] :: pyFindallF fuel r (some x) xs
      else
        s.take (s.length - rest.length) :: pyFindallF fuel r p2 rest

/-- The findall scan started with adequate fuel. -/
def pyFindallL (r : RE) (prev : Option Char) (s : List Char) :
    List (List Char) :=
  pyFindallF (s.length + 1) r prev s

/-- Python re.findall for a pattern with no capturing groups: the list of
matched substrings, leftmost first. -/
def pyFindall (r : RE) (s : String) : List String :=
  (pyFindallL r none s.data).map List.asString

/-- The phone-number pattern from line 35 of the source, an optional
open paren, three digits, optional close paren, optional dash, spaces,
three digits, optional dash, spaces, optional dash, four digits. -/
def PHONE_PATTERN : RE :=
  reSeqList [.opt (.chr '('), .digit, .digit, .digit, .opt (.chr ')'),
    .opt (.chr '-'), .starChr ' ', .digit, .digit, .digit,
    .opt (.chr '-'), .starChr ' ', .opt (.chr '-'),
    .digit, .digit, .digit, .digit]

/-- The zip-code pattern from line 34 of the source: a word boundary,
five digits, an optional dash-plus-four-digits group, a word boundary. -/
def ZIPCODE_PATTERN : RE :=
  reSeqList [.bound, .digit, .digit, .digit, .digit, .digit,
    .opt (reSeqList [.chr '-', .digit, .digit, .digit, .digit]), .bound]

/-! ## The parsed page and scrape_website (lines 41-94 of the source)

BeautifulSoup parsing is external library behaviour; an Html value is the
parsed document as the script consumes it: the href attribute of each
anchor element that has one, the src attribute of each image element that
has one, both in document order, and the text extracted by
soup.get_text(separator, strip). -/

structure Html where
  anchor_hrefs : List String
  img_srcs : List String
  text : String

/-- scrape_website: the two element loops with naive URL resolution and
the domain filter on anchors, the text extraction, and the two
re.findall scans, returning the tuple (page_links, image_links,
text_content, phone_numbers, zip_codes). -/
def scrape_website (doc : Html) :
    List String × List String × String × List String × List String :=
  let page_links := doc.anchor_hrefs.foldl
    (fun acc href0 =>
      let href := if !(pyStartsWith href0 "http") then URL ++ href0 else href0
      if strContains href URL then setAdd acc href else acc) []
  let image_links := doc.img_srcs.foldl
    (fun acc src0 =>
      let src := if !(pyStartsWith src0 "http") then URL ++ src0 else src0
      setAdd acc src) []
  let text_content := "" ++ doc.text
  let phone_numbers := setOfList (pyFindall PHONE_PATTERN text_content)
  let zip_codes := setOfList (pyFindall ZIPCODE_PATTERN text_content)
  (page_links, image_links, text_content, phone_numbers, zip_codes)

/-! ## download_images (lines 96-112 of the source)

Effects are explicit: requests.get is an oracle returning either the
response content bytes or the message of the exception it raises; the
filesystem write is an oracle returning the message of the exception
open/write raises, or none on success. The state carries the
chronological trace of completed file writes and the lines printed to
standard output. -/

structure FsLog where
  files : List (String × List Nat)
  output : List String

/-- download_images: one loop iteration per URL; the try block fetches,
derives the filename with os.path.basename, joins it to IMAGE_DIR and
writes; any exception is caught, printed, and the loop continues. -/
def download_images (get : String → Except String (List Nat))
    (writeErr : String → Option String) :
    List String → FsLog → FsLog
  | [], st => st
  | image_url :: rest, st =>
    let st2 :=
      match get image_url with
      | .error e =>
        { st with output := st.output ++
            ["Error downloading image " ++ image_url ++ ": " ++ e] }
      | .ok content =>
        let image_name := basename image_url
        let image_path := IMAGE_DIR ++ "/" ++ image_name
        match writeErr image_path with
        | some e =>
          { st with output := st.output ++
              ["Error downloading image " ++ image_url ++ ": " ++ e] }
        | none =>
          { files := st.files ++ [(image_path, content)],
            output := st.output ++ ["Image saved: " ++ image_path] }
    download_images get writeErr rest st2

/-! ## Text analysis (lines 114-139 of the source) -/

/-- Python re whitespace characters (ASCII scope). -/
def isSpaceChar (c : Char) : Bool :=
  c == ' ' || c == '\t' || c == '\n' || c == '\r' ||
    c == '\x0b' || c == '\x0c'

theorem dropWhile_len_le (p : Char → Bool) (l : List Char) :
    (l.dropWhile p).length ≤ l.length := by
  induction l with
  | nil => simp
  | cons x xs ih =>
    by_cases h : p x
    · rw [List.dropWhile_cons]
      simp [h]
      omega
    · rw [List.dropWhile_cons]
      simp [h]

/-- NLTK wordpunct_tokenize on a character list: the findall of the
pattern word-chars-plus or nonword-nonspace-chars-plus, that is, maximal
runs of word characters and maximal runs of characters that are neither
word characters nor whitespace, with whitespace skipped. The first
argument is recursion fuel: every step advances at least one character
(by dropWhile_len_le), so a budget of one more than the input length is
never exhausted; tokenizeL supplies it. -/
def tokenizeF : Nat → List Char → List String
  | 0, _ => []
  | _, [] => []
  | fuel + 1, c :: rest =>
    if isSpaceChar c then tokenizeF fuel rest
    else
      let p := if isWordCharB c then isWordCharB
               else fun d => !isWordCharB d && !isSpaceChar d
      (c :: rest.takeWhile p).asString :: tokenizeF fuel (rest.dropWhile p)

/-- The tokenizer started with adequate fuel. -/
def tokenizeL (s : List Char) : List String := tokenizeF (s.length + 1) s

/-- NLTK wordpunct_tokenize on a string. -/
def wordpunct_tokenize (text : String) : List String := tokenizeL text.data

/-- process_text_with_nltk: tokenize, keep alphabetic non-stop-word
tokens, set the vocabulary, tag the filtered token list, and bucket by
tag. The tagging function (NLTK pos_tag, a library model) and the
stop-word list (NLTK corpus data loaded at startup) are parameters. -/
def process_text_with_nltk (tag : List String → List (String × String))
    (STOPWORDS : List String) (text : String) :
    List String × List String × List String :=
  let tokens := wordpunct_tokenize text
  let filtered_tokens := tokens.filter
    (fun word => pyIsAlpha word && !(STOPWORDS.contains (pyLower word)))
  let unique_vocab := setOfList filtered_tokens
  let pos_tags := tag filtered_tokens
  let nouns := setOfList ((pos_tags.filter
      (fun wt => pyStartsWith wt.2 "NN")).map Prod.fst)
  let verbs := setOfList ((pos_tags.filter
      (fun wt => pyStartsWith wt.2 "VB")).map Prod.fst)
  (unique_vocab, nouns, verbs)

/-! ## generate_report (lines 141-205 of the source)

The report file content: the concatenation of every report_file.write
call, in order. Set arguments appear as their insertion-order list
representation; len is the list length and the join is Python
str.join. -/

/-- Python ", ".join. -/
def commaJoin (l : List String) : String := String.intercalate ", " l

/-- The full report text written to the report file. -/
def generate_report (page_links image_links phone_numbers zip_codes
    unique_vocab nouns verbs : List String) : String :=
  "Target Website: " ++ URL ++ "\n\n" ++
  ("Unique URLs Found (" ++ toString page_links.length ++ "):\n") ++
  (commaJoin page_links ++ "\n\n") ++
  ("\nUnique Image URLs Found (" ++ toString image_links.length ++ "):\n") ++
  (commaJoin image_links ++ "\n\n") ++
  ("\nPhone Numbers Found (" ++ toString phone_numbers.length ++ "):\n") ++
  (commaJoin phone_numbers ++ "\n\n") ++
  ("\nZip Codes Found (" ++ toString zip_codes.length ++ "):\n") ++
  (commaJoin zip_codes ++ "\n\n") ++
  ("\nUnique Vocabulary Found (" ++ toString unique_vocab.length ++ "):\n") ++
  (commaJoin unique_vocab ++ "\n\n") ++
  ("\nNouns Found (" ++ toString nouns.length ++ "):\n") ++
  (commaJoin nouns ++ "\n\n") ++
  ("\nVerbs Found (" ++ toString verbs.length ++ "):\n") ++
  (commaJoin verbs ++ "\n\n")

/-! ## Helper lemmas -/

theorem dataAppend (a b : String) : (a ++ b).data = a.data ++ b.data := by
  cases a
  cases b
  rfl

theorem startsWithL_self (l : List Char) : startsWithL l l = true := by
  induction l with
  | nil => rfl
  | cons x xs ih => simp [startsWithL, ih]

theorem startsWithL_append_of (a b p : List Char)
    (h : startsWithL a p = true) : startsWithL (a ++ b) p = true := by
  induction p generalizing a with
  | nil => cases a <;> simp [startsWithL]
  | cons q qs ih =>
    cases a with
    | nil => simp [startsWithL] at h
    | cons x xs =>
      simp [startsWithL] at h ⊢
      exact ⟨h.1, ih xs h.2⟩

theorem containsL_of_startsWithL (hay n : List Char)
    (h : startsWithL hay n = true) : containsL hay n = true := by
  cases hay <;> simp [containsL, h]

theorem containsL_append_left (a b n : List Char)
    (h : containsL b n = true) : containsL (a ++ b) n = true := by
  induction a with
  | nil => simpa
  | cons x xs ih =>
    rw [List.cons_append, containsL]
    simp [ih]

theorem strContains_append_left (a b n : String)
    (h : strContains b n = true) : strContains (a ++ b) n = true := by
  rw [strContains, dataAppend]
  exact containsL_append_left a.data b.data n.data h

theorem strContains_append_self (n b : String) :
    strContains (n ++ b) n = true := by
  rw [strContains, dataAppend]
  exact containsL_of_startsWithL _ _
    (startsWithL_append_of _ _ _ (startsWithL_self n.data))

theorem url_append_startsWith_http (raw : String) :
    pyStartsWith (URL ++ raw) "http" = true := by
  rw [pyStartsWith, dataAppend]
  exact startsWithL_append_of _ _ _ (by decide)

theorem url_append_contains_url (raw : String) :
    strContains (URL ++ raw) URL = true :=
  strContains_append_self URL raw

theorem strAppend_assoc (a b c : String) : a ++ b ++ c = a ++ (b ++ c) := by
  cases a
  cases b
  cases c
  simp [String.ext_iff, dataAppend]

theorem mem_setAdd {l : List String} {x y : String} :
    y ∈ setAdd l x ↔ y ∈ l ∨ y = x := by
  rw [setAdd]
  by_cases h : x ∈ l
  · rw [if_pos h]
    constructor
    · exact Or.inl
    · rintro (hy | rfl)
      · exact hy
      · exact h
  · rw [if_neg h]
    simp [List.mem_append]

theorem mem_foldl_setAdd (l acc : List String) (y : String) :
    y ∈ l.foldl setAdd acc ↔ y ∈ acc ∨ y ∈ l := by
  induction l generalizing acc with
  | nil => simp
  | cons x t ih =>
    simp only [List.foldl_cons]
    rw [ih, mem_setAdd]
    simp [List.mem_cons]
    tauto

theorem mem_setOfList (l : List String) (y : String) :
    y ∈ setOfList l ↔ y ∈ l := by
  rw [setOfList, mem_foldl_setAdd]
  simp

theorem mem_filtered_add_fold (g : String → String) (q : String → Bool)
    (l acc : List String) (x : String) :
    x ∈ l.foldl (fun a r => if q (g r) then setAdd a (g r) else a) acc ↔
      x ∈ acc ∨ ∃ raw ∈ l, x = g raw ∧ q x = true := by
  induction l generalizing acc with
  | nil => simp
  | cons hd t ih =>
    simp only [List.foldl_cons]
    rw [ih]
    by_cases hq : q (g hd) = true
    · rw [if_pos hq, mem_setAdd]
      constructor
      · rintro ((hx | rfl) | ⟨raw, hr, he, hqq⟩)
        · exact Or.inl hx
        · exact Or.inr ⟨hd, List.mem_cons_self _ _, rfl, hq⟩
        · exact Or.inr ⟨raw, List.mem_cons_of_mem _ hr, he, hqq⟩
      · rintro (hx | ⟨raw, hr, he, hqq⟩)
        · exact Or.inl (Or.inl hx)
        · rcases List.mem_cons.mp hr with rfl | hr2
          · exact Or.inl (Or.inr he)
          · exact Or.inr ⟨raw, hr2, he, hqq⟩
    · rw [if_neg hq]
      constructor
      · rintro (hx | ⟨raw, hr, he, hqq⟩)
        · exact Or.inl hx
        · exact Or.inr ⟨raw, List.mem_cons_of_mem _ hr, he, hqq⟩
      · rintro (hx | ⟨raw, hr, he, hqq⟩)
        · exact Or.inl hx
        · rcases List.mem_cons.mp hr with rfl | hr2
          · exact absurd (he ▸ hqq) hq
          · exact Or.inr ⟨raw, hr2, he, hqq⟩

theorem mem_add_fold (g : String → String) (l acc : List String) (x : String) :
    x ∈ l.foldl (fun a r => setAdd a (g r)) acc ↔
      x ∈ acc ∨ ∃ raw ∈ l, x = g raw := by
  induction l generalizing acc with
  | nil => simp
  | cons hd t ih =>
    simp only [List.foldl_cons]
    rw [ih, mem_setAdd]
    constructor
    · rintro ((hx | rfl) | ⟨raw, hr, he⟩)
      · exact Or.inl hx
      · exact Or.inr ⟨hd, List.mem_cons_self _ _, rfl⟩
      · exact Or.inr ⟨raw, List.mem_cons_of_mem _ hr, he⟩
    · rintro (hx | ⟨raw, hr, he⟩)
      · exact Or.inl (Or.inl hx)
      · rcases List.mem_cons.mp hr with rfl | hr2
        · exact Or.inl (Or.inr he)
        · exact Or.inr ⟨raw, hr2, he⟩

theorem mem_vocab_of_mem_bucket (tag : List String → List (String × String))
    (toks : List String) (tg : String) (w : String)
    (htag : ∀ p ∈ tag toks, p.1 ∈ toks)
    (hw : w ∈ setOfList (((tag toks).filter
        (fun wt => pyStartsWith wt.2 tg)).map Prod.fst)) :
    w ∈ setOfList toks := by
  rw [mem_setOfList] at hw ⊢
  rw [List.mem_map] at hw
  obtain ⟨p, hp, rfl⟩ := hw
  exact htag p (List.mem_filter.mp hp).1

/-! ## Claims -/

/-- C1: for every parsed page, the page-link set of scrape_website holds
exactly the resolved anchor hrefs whose resolved form has the domain
filter string as a substring, and nothing else. -/
theorem scrape_page_links_exact (doc : Html) (u : String) :
    u ∈ (scrape_website doc).1 ↔
      ∃ raw ∈ doc.anchor_hrefs,
        u = (if !(pyStartsWith raw "http") then URL ++ raw else raw) ∧
        strContains u "https://casl.website" = true := by
  have h := mem_filtered_add_fold
    (fun href0 => if !(pyStartsWith href0 "http") then URL ++ href0 else href0)
    (fun href => strContains href URL) doc.anchor_hrefs [] u
  simp only [List.not_mem_nil, false_or] at h
  exact h

/-- C2: for every parsed page, the image-link set of scrape_website holds
exactly the resolved src of every image element, with no domain condition
anywhere. -/
theorem scrape_image_links_all (doc : Html) (u : String) :
    u ∈ (scrape_website doc).2.1 ↔
      ∃ raw ∈ doc.img_srcs,
        u = (if !(pyStartsWith raw "http") then URL ++ raw else raw) := by
  have h := mem_add_fold
    (fun src0 => if !(pyStartsWith src0 "http") then URL ++ src0 else src0)
    doc.img_srcs [] u
  simp only [List.not_mem_nil, false_or] at h
  exact h

/-- C6: URL resolution is naive string concatenation: a raw value not
starting with http resolves to URL immediately followed by the raw value
and lands in the image-link set (and, for anchors, in the page-link set,
the concatenation always passing the domain filter); a raw value starting
with http is kept unchanged. -/
theorem url_resolution_naive_concat (doc : Html) (raw : String) :
    (raw ∈ doc.img_srcs →
      (pyStartsWith raw "http" = false →
        URL ++ raw ∈ (scrape_website doc).2.1) ∧
      (pyStartsWith raw "http" = true → raw ∈ (scrape_website doc).2.1)) ∧
    (raw ∈ doc.anchor_hrefs →
      (pyStartsWith raw "http" = false →
        URL ++ raw ∈ (scrape_website doc).1) ∧
      (pyStartsWith raw "http" = true → strContains raw URL = true →
        raw ∈ (scrape_website doc).1)) := by
  constructor
  · intro hm
    constructor
    · intro hp
      exact (mem_add_fold
        (fun src0 => if !(pyStartsWith src0 "http") then URL ++ src0 else src0)
        doc.img_srcs [] (URL ++ raw)).mpr
        (Or.inr ⟨raw, hm, by rw [hp]; simp⟩)
    · intro hp
      exact (mem_add_fold
        (fun src0 => if !(pyStartsWith src0 "http") then URL ++ src0 else src0)
        doc.img_srcs [] raw).mpr
        (Or.inr ⟨raw, hm, by rw [hp]; simp⟩)
  · intro hm
    constructor
    · intro hp
      exact (mem_filtered_add_fold
        (fun href0 => if !(pyStartsWith href0 "http") then URL ++ href0 else href0)
        (fun href => strContains href URL) doc.anchor_hrefs []
        (URL ++ raw)).mpr
        (Or.inr ⟨raw, hm, by rw [hp]; simp, url_append_contains_url raw⟩)
    · intro hp hc
      exact (mem_filtered_add_fold
        (fun href0 => if !(pyStartsWith href0 "http") then URL ++ href0 else href0)
        (fun href => strContains href URL) doc.anchor_hrefs [] raw).mpr
        (Or.inr ⟨raw, hm, by rw [hp]; simp, hc⟩)

theorem url_resolution_naive_concat_witness :
    URL ++ "/p" ∈ (scrape_website ⟨["/p"], ["/p"], ""⟩).2.1 ∧
    URL ++ "/p" ∈ (scrape_website ⟨["/p"], ["/p"], ""⟩).1 :=
  ⟨((url_resolution_naive_concat ⟨["/p"], ["/p"], ""⟩ "/p").1
      (by decide)).1 rfl,
   ((url_resolution_naive_concat ⟨["/p"], ["/p"], ""⟩ "/p").2
      (by decide)).1 rfl⟩

/-- C10: every member of the page-link set or of the image-link set
starts with http: kept raw values start with http by the branch
condition, and all others get the https base URL prepended. -/
theorem scrape_links_start_http (doc : Html) (u : String)
    (h : u ∈ (scrape_website doc).1 ∨ u ∈ (scrape_website doc).2.1) :
    pyStartsWith u "http" = true := by
  rcases h with h | h
  · have h2 := (mem_filtered_add_fold
      (fun href0 => if !(pyStartsWith href0 "http") then URL ++ href0 else href0)
      (fun href => strContains href URL) doc.anchor_hrefs [] u).mp h
    simp only [List.not_mem_nil, false_or] at h2
    obtain ⟨raw, -, he, -⟩ := h2
    cases hp : pyStartsWith raw "http" with
    | false =>
      rw [hp] at he
      simp at he
      rw [he]
      exact url_append_startsWith_http raw
    | true =>
      rw [hp] at he
      simp at he
      rw [he]
      exact hp
  · have h2 := (mem_add_fold
      (fun src0 => if !(pyStartsWith src0 "http") then URL ++ src0 else src0)
      doc.img_srcs [] u).mp h
    simp only [List.not_mem_nil, false_or] at h2
    obtain ⟨raw, -, he⟩ := h2
    cases hp : pyStartsWith raw "http" with
    | false =>
      rw [hp] at he
      simp at he
      rw [he]
      exact url_append_startsWith_http raw
    | true =>
      rw [hp] at he
      simp at he
      rw [he]
      exact hp

theorem scrape_links_start_http_witness :
    pyStartsWith "https://casl.website/x" "http" = true :=
  scrape_links_start_http ⟨["/x"], [], ""⟩ "https://casl.website/x"
    (Or.inl (by decide))

/-- C8: process_text_with_nltk is deterministic in its input: two runs on
the same text (with the same tagging function and stop-word list) yield
identical vocabulary, noun and verb sets. In this embedding the pipeline
is a pure function, so determinism holds definitionally; the point
confirmed is that the source pipeline threads no state between runs. -/
theorem process_text_deterministic
    (tag : List String → List (String × String)) (stop : List String)
    (text : String) :
    (process_text_with_nltk tag stop text).1 =
        (process_text_with_nltk tag stop text).1 ∧
    (process_text_with_nltk tag stop text).2.1 =
        (process_text_with_nltk tag stop text).2.1 ∧
    (process_text_with_nltk tag stop text).2.2 =
        (process_text_with_nltk tag stop text).2.2 :=
  ⟨rfl, rfl, rfl⟩

/-- C9: when the tagging function returns pairs whose first components
come from its input list (as NLTK pos_tag does), the noun set and the
verb set are both subsets of the vocabulary set. -/
theorem nouns_verbs_subset_vocab
    (tag : List String → List (String × String)) (stop : List String)
    (text : String)
    (htag : ∀ l : List String, ∀ p ∈ tag l, p.1 ∈ l) :
    (∀ w ∈ (process_text_with_nltk tag stop text).2.1,
        w ∈ (process_text_with_nltk tag stop text).1) ∧
    (∀ w ∈ (process_text_with_nltk tag stop text).2.2,
        w ∈ (process_text_with_nltk tag stop text).1) := by
  constructor
  · intro w hw
    exact mem_vocab_of_mem_bucket tag _ "NN" w (htag _) hw
  · intro w hw
    exact mem_vocab_of_mem_bucket tag _ "VB" w (htag _) hw

theorem nouns_verbs_subset_vocab_witness :
    "hello" ∈ (process_text_with_nltk
      (fun l => l.map (fun w => (w, "NN"))) [] "hello world").1 :=
  (nouns_verbs_subset_vocab (fun l => l.map (fun w => (w, "NN"))) []
    "hello world"
    (fun l p hp => by
      rw [List.mem_map] at hp
      obtain ⟨a, ha, rfl⟩ := hp
      exact ha)).1 "hello" (by decide)

theorem download_images_files_mono (get : String → Except String (List Nat))
    (writeErr : String → Option String) (urls : List String) (st : FsLog)
    (x : String × List Nat) (hx : x ∈ st.files) :
    x ∈ (download_images get writeErr urls st).files := by
  induction urls generalizing st with
  | nil => simpa [download_images]
  | cons v rest ih =>
    simp only [download_images]
    apply ih
    cases hg : get v with
    | error e => simpa [hg]
    | ok content =>
      cases hw : writeErr (IMAGE_DIR ++ "/" ++ basename v) with
      | none => simp [hg, hw, List.mem_append, hx]
      | some e => simpa [hg, hw]

theorem download_images_output_mono (get : String → Except String (List Nat))
    (writeErr : String → Option String) (urls : List String) (st : FsLog)
    (x : String) (hx : x ∈ st.output) :
    x ∈ (download_images get writeErr urls st).output := by
  induction urls generalizing st with
  | nil => simpa [download_images]
  | cons v rest ih =>
    simp only [download_images]
    apply ih
    cases hg : get v with
    | error e => simp [hg, List.mem_append, hx]
    | ok content =>
      cases hw : writeErr (IMAGE_DIR ++ "/" ++ basename v) with
      | none => simp [hg, hw, List.mem_append, hx]
      | some e => simp [hg, hw, List.mem_append, hx]

/-- C4: download_images catches the exception of a failing fetch or
write, prints an error line, and continues, so every URL whose fetch
succeeds and whose write does not raise still has its file written, no
matter which other URLs fail. -/
theorem download_images_continue_on_error
    (get : String → Except String (List Nat))
    (writeErr : String → Option String)
    (urls : List String) (st : FsLog) (u : String) (hu : u ∈ urls) :
    (∀ content, get u = .ok content →
      writeErr (IMAGE_DIR ++ "/" ++ basename u) = none →
      (IMAGE_DIR ++ "/" ++ basename u, content) ∈
        (download_images get writeErr urls st).files) ∧
    (∀ e, get u = .error e →
      ("Error downloading image " ++ u ++ ": " ++ e) ∈
        (download_images get writeErr urls st).output) ∧
    (∀ content e, get u = .ok content →
      writeErr (IMAGE_DIR ++ "/" ++ basename u) = some e →
      ("Error downloading image " ++ u ++ ": " ++ e) ∈
        (download_images get writeErr urls st).output) := by
  revert hu
  induction urls generalizing st with
  | nil =>
    intro hu
    simp at hu
  | cons v rest ih =>
    intro hu
    rcases List.mem_cons.mp hu with rfl | hmem
    · refine ⟨?_, ?_, ?_⟩
      · intro content hc hw
        simp only [download_images, hc, hw]
        exact download_images_files_mono _ _ _ _ _ (by simp)
      · intro e he
        simp only [download_images, he]
        exact download_images_output_mono _ _ _ _ _ (by simp)
      · intro content e hc hw
        simp only [download_images, hc, hw]
        exact download_images_output_mono _ _ _ _ _ (by simp)
    · simp only [download_images]
      exact ih _ hmem

theorem download_images_continue_on_error_witness :
    ("images/a.png", [7]) ∈ (download_images
        (fun u => if u = "http://s/b.png" then Except.error "boom"
          else Except.ok [7]) (fun _ => none)
        ["http://s/a.png", "http://s/b.png", "http://s/c.png"]
        ⟨[], []⟩).files ∧
    ("images/c.png", [7]) ∈ (download_images
        (fun u => if u = "http://s/b.png" then Except.error "boom"
          else Except.ok [7]) (fun _ => none)
        ["http://s/a.png", "http://s/b.png", "http://s/c.png"]
        ⟨[], []⟩).files ∧
    "Error downloading image http://s/b.png: boom" ∈ (download_images
        (fun u => if u = "http://s/b.png" then Except.error "boom"
          else Except.ok [7]) (fun _ => none)
        ["http://s/a.png", "http://s/b.png", "http://s/c.png"]
        ⟨[], []⟩).output :=
  ⟨(download_images_continue_on_error
      (fun u => if u = "http://s/b.png" then Except.error "boom"
        else Except.ok [7]) (fun _ => none)
      ["http://s/a.png", "http://s/b.png", "http://s/c.png"]
      ⟨[], []⟩ "http://s/a.png" (by decide)).1 [7] rfl rfl,
   (download_images_continue_on_error
      (fun u => if u = "http://s/b.png" then Except.error "boom"
        else Except.ok [7]) (fun _ => none)
      ["http://s/a.png", "http://s/b.png", "http://s/c.png"]
      ⟨[], []⟩ "http://s/c.png" (by decide)).1 [7] rfl rfl,
   (download_images_continue_on_error
      (fun u => if u = "http://s/b.png" then Except.error "boom"
        else Except.ok [7]) (fun _ => none)
      ["http://s/a.png", "http://s/b.png", "http://s/c.png"]
      ⟨[], []⟩ "http://s/b.png" (by decide)).2.1 "boom" rfl⟩

/-- C5: on the text the-quick-Fox-jumps, with the stop-word the in the
list (matched case-insensitively) and quick, fox, jumps absent from it
(as in the NLTK English list), the vocabulary excludes the and includes
quick, Fox and jumps with their original case. -/
theorem vocab_stopword_filtering
    (tag : List String → List (String × String)) (stop : List String)
    (h1 : stop.contains "the" = true) (h2 : stop.contains "quick" = false)
    (h3 : stop.contains "fox" = false) (h4 : stop.contains "jumps" = false) :
    "the" ∉ (process_text_with_nltk tag stop "the quick Fox jumps").1 ∧
    "quick" ∈ (process_text_with_nltk tag stop "the quick Fox jumps").1 ∧
    "Fox" ∈ (process_text_with_nltk tag stop "the quick Fox jumps").1 ∧
    "jumps" ∈ (process_text_with_nltk tag stop "the quick Fox jumps").1 := by
  have hkey : ∀ x : String,
      x ∈ (process_text_with_nltk tag stop "the quick Fox jumps").1 ↔
        x ∈ ["the", "quick", "Fox", "jumps"] ∧
          (pyIsAlpha x && !(stop.contains (pyLower x))) = true := by
    intro x
    have h := mem_setOfList
      ((wordpunct_tokenize "the quick Fox jumps").filter
        (fun word => pyIsAlpha word && !(stop.contains (pyLower word)))) x
    rw [List.mem_filter] at h
    exact h
  refine ⟨?_, ?_, ?_, ?_⟩
  · intro hx
    have hc := ((hkey "the").mp hx).2
    rw [show pyLower "the" = "the" from rfl, h1] at hc
    simp at hc
  · refine (hkey "quick").mpr ⟨by simp, ?_⟩
    rw [show pyLower "quick" = "quick" from rfl, h2]
    decide
  · refine (hkey "Fox").mpr ⟨by simp, ?_⟩
    rw [show pyLower "Fox" = "fox" from rfl, h3]
    decide
  · refine (hkey "jumps").mpr ⟨by simp, ?_⟩
    rw [show pyLower "jumps" = "jumps" from rfl, h4]
    decide

theorem vocab_stopword_filtering_witness :
    ("the" ∉ (process_text_with_nltk (fun l => l.map (fun w => (w, "NN")))
        ["the"] "the quick Fox jumps").1) ∧
    "quick" ∈ (process_text_with_nltk (fun l => l.map (fun w => (w, "NN")))
        ["the"] "the quick Fox jumps").1 ∧
    "Fox" ∈ (process_text_with_nltk (fun l => l.map (fun w => (w, "NN")))
        ["the"] "the quick Fox jumps").1 ∧
    "jumps" ∈ (process_text_with_nltk (fun l => l.map (fun w => (w, "NN")))
        ["the"] "the quick Fox jumps").1 :=
  vocab_stopword_filtering (fun l => l.map (fun w => (w, "NN"))) ["the"]
    (by decide) (by decide) (by decide) (by decide)

/-- C3: on the text Call (555) 123-4567 or visit 90210-1234, the phone
pattern findall yields exactly the singleton (555) 123-4567 and the zip
pattern findall yields exactly the singleton 90210-1234, as the
phone-number and zip-code sets of scrape_website. -/
theorem scrape_regex_extraction :
    (scrape_website ⟨[], [],
        "Call (555) 123-4567 or visit 90210-1234"⟩).2.2.2.1 =
      ["(555) 123-4567"] ∧
    (scrape_website ⟨[], [],
        "Call (555) 123-4567 or visit 90210-1234"⟩).2.2.2.2 =
      ["90210-1234"] := by
  constructor
  · rfl
  · rfl

/-- C7: with an empty phone-number set, the report contains the section
line Phone Numbers Found (0): followed by an empty listing line (the
comma-join of the empty set), whatever the other sets hold. -/
theorem report_empty_phone_section
    (page_links image_links zip_codes unique_vocab nouns verbs :
      List String) :
    strContains
      (generate_report page_links image_links [] zip_codes unique_vocab
        nouns verbs)
      "\nPhone Numbers Found (0):\n\n\n" = true := by
  have hmid : ∀ X : String,
      "\nPhone Numbers Found (" ++
        (toString (List.length ([] : List String)) ++
          ("):\n" ++ (commaJoin [] ++ ("\n\n" ++ X)))) =
      "\nPhone Numbers Found (0):\n\n\n" ++ X := by
    intro X
    rw [show toString (List.length ([] : List String)) = "0" from rfl,
      show commaJoin [] = "" from rfl]
    rw [← strAppend_assoc, ← strAppend_assoc, ← strAppend_assoc,
      ← strAppend_assoc]
    congr 1
  simp only [generate_report, strAppend_assoc]
  apply strContains_append_left
  apply strContains_append_left
  apply strContains_append_left
  apply strContains_append_left
  apply strContains_append_left
  apply strContains_append_left
  apply strContains_append_left
  apply strContains_append_left
  apply strContains_append_left
  apply strContains_append_left
  apply strContains_append_left
  apply strContains_append_left
  apply strContains_append_left
  rw [hmid]
  exact strContains_append_self _ _
